import Mathlib

/-!
Verification development for the Fraction Bars repository
(src/fraction-bars/src/components/StateManager.ts).

The state/history engine (StateManager: reducer, dispatch, undo/redo,
batching, bounded action log) and the single-pointer gesture classifier
(TouchInteractionManager.handleSingleTouchMove) are shallowly embedded as
executable Lean definitions, translated field by field from the TypeScript
source.  JavaScript numbers that the claims touch only through addition,
subtraction, absolute value and comparisons are modelled as `Int`;
JavaScript strings as `String`; `Partial<...>` objects as structures of
`Option` fields whose spread semantics are `Option.getD`.

The one external effect inside the reducer, `generateId()` (built from
`Date.now()` and `Math.random()`), is modelled by an explicit entropy
input: the reducer takes the string that `generateId` would have returned,
and the manager carries a stream `ids : Nat → String` together with a
cursor `idIdx` recording how many ids have been drawn so far.

Subscriber notification is modelled by the list `notified`: every call of
`notifySubscribers` (always performed by `updateState`) appends the state
it broadcasts, so the number of times each subscriber's callback runs is
the growth of this list.
-/

namespace FractionBars

/-- `SplitState` from StateManager.ts. -/
structure SplitState where
  id : String
  x : Int
  y : Int
  width : Int
  height : Int
  color : String
  isSelected : Bool
  deriving DecidableEq, Repr

/-- `FractionBarState` from StateManager.ts (`label`/`fraction` are optional). -/
structure FractionBarState where
  id : String
  x : Int
  y : Int
  width : Int
  height : Int
  color : String
  isSelected : Bool
  isUnitBar : Bool
  label : Option String
  fraction : Option String
  splits : List SplitState
  deriving DecidableEq, Repr

/-- `AppSettings` from StateManager.ts. -/
structure AppSettings where
  defaultBarColor : String
  defaultBarHeight : Int
  showLabels : Bool
  snapToGrid : Bool
  gridSize : Int
  deriving DecidableEq, Repr

/-- `AppState` from StateManager.ts (`unitBarId` is optional). -/
structure AppState where
  version : String
  bars : List FractionBarState
  currentTool : String
  selectedBarIds : List String
  unitBarId : Option String
  settings : AppSettings
  deriving DecidableEq, Repr

/-- `Partial<FractionBarState>`: every field optional; `some v` means the
property is present with value `v`.  Used as the ADD_BAR payload and as
MODIFY_BAR's `payload.changes`. -/
structure BarPatch where
  id : Option String := none
  x : Option Int := none
  y : Option Int := none
  width : Option Int := none
  height : Option Int := none
  color : Option String := none
  isSelected : Option Bool := none
  isUnitBar : Option Bool := none
  label : Option String := none
  fraction : Option String := none
  splits : Option (List SplitState) := none
  deriving DecidableEq, Repr

/-- Partial `AppSettings`, the UPDATE_SETTINGS payload. -/
structure SettingsPatch where
  defaultBarColor : Option String := none
  defaultBarHeight : Option Int := none
  showLabels : Option Bool := none
  snapToGrid : Option Bool := none
  gridSize : Option Int := none
  deriving DecidableEq, Repr

/-- `Partial<AppState>`, the StateManager constructor argument. -/
structure AppStatePatch where
  version : Option String := none
  bars : Option (List FractionBarState) := none
  currentTool : Option String := none
  selectedBarIds : Option (List String) := none
  unitBarId : Option String := none
  settings : Option AppSettings := none
  deriving DecidableEq, Repr

/-- The `defaultState` literal inside `createInitialState`. -/
def defaultAppState : AppState :=
  { version := "1.0.0"
    bars := []
    currentTool := "bar"
    selectedBarIds := []
    unitBarId := none
    settings :=
      { defaultBarColor := "#FFFF66"
        defaultBarHeight := 60
        showLabels := true
        snapToGrid := false
        gridSize := 10 } }

/-- `createInitialState(initialState?)`: `{ ...defaultState, ...initialState }`. -/
def createInitialState (p : Option AppStatePatch) : AppState :=
  match p with
  | none => defaultAppState
  | some pp =>
      { version := pp.version.getD defaultAppState.version
        bars := pp.bars.getD defaultAppState.bars
        currentTool := pp.currentTool.getD defaultAppState.currentTool
        selectedBarIds := pp.selectedBarIds.getD defaultAppState.selectedBarIds
        unitBarId := pp.unitBarId
        settings := pp.settings.getD defaultAppState.settings }

/-- `{ ...bar, ...changes }` in the MODIFY_BAR case: present fields of the
patch overwrite the bar's fields. -/
def mergeBar (b : FractionBarState) (ch : BarPatch) : FractionBarState :=
  { id := ch.id.getD b.id
    x := ch.x.getD b.x
    y := ch.y.getD b.y
    width := ch.width.getD b.width
    height := ch.height.getD b.height
    color := ch.color.getD b.color
    isSelected := ch.isSelected.getD b.isSelected
    isUnitBar := ch.isUnitBar.getD b.isUnitBar
    label := match ch.label with | some l => some l | none => b.label
    fraction := match ch.fraction with | some f => some f | none => b.fraction
    splits := ch.splits.getD b.splits }

/-- `{ ...state.settings, ...action.payload }` in the UPDATE_SETTINGS case. -/
def mergeSettings (s : AppSettings) (p : SettingsPatch) : AppSettings :=
  { defaultBarColor := p.defaultBarColor.getD s.defaultBarColor
    defaultBarHeight := p.defaultBarHeight.getD s.defaultBarHeight
    showLabels := p.showLabels.getD s.showLabels
    snapToGrid := p.snapToGrid.getD s.snapToGrid
    gridSize := p.gridSize.getD s.gridSize }

/-- `createBar(barData)`: defaults (drawn from `this.state.settings`, here
the `self` argument, and from `generateId()`, here the `freshId` argument)
overridden by the payload's present fields.  `label`/`fraction` have no
default and come from the payload alone. -/
def createBar (self : AppState) (freshId : String) (p : BarPatch) : FractionBarState :=
  { id := p.id.getD freshId
    x := p.x.getD 0
    y := p.y.getD 0
    width := p.width.getD 100
    height := p.height.getD self.settings.defaultBarHeight
    color := p.color.getD self.settings.defaultBarColor
    isSelected := p.isSelected.getD false
    isUnitBar := p.isUnitBar.getD false
    label := p.label
    fraction := p.fraction
    splits := p.splits.getD [] }

/-- The `ActionType` union with each variant's payload shape. -/
inductive ActionKind where
  | ADD_BAR (payload : BarPatch)
  | REMOVE_BAR (id : String)
  | MODIFY_BAR (id : String) (changes : BarPatch)
  | SPLIT_BAR (barId : String) (splits : List SplitState)
  | JOIN_BARS (sourceIds : List String) (resultBar : FractionBarState)
  | SET_UNIT_BAR (id : String)
  | CHANGE_TOOL (tool : String)
  | UPDATE_SETTINGS (payload : SettingsPatch)
  deriving DecidableEq, Repr

/-- `Action`: a kind/payload plus the `Date.now()` timestamp that
`dispatch` stamps on it. -/
structure Action where
  kind : ActionKind
  timestamp : Int
  deriving DecidableEq, Repr

/-- `handleSplitBar(state, payload)`. -/
def handleSplitBar (state : AppState) (barId : String) (splits : List SplitState) :
    AppState :=
  { state with
      bars := state.bars.map (fun b => if b.id = barId then { b with splits := splits } else b) }

/-- `handleJoinBars(state, payload)`. -/
def handleJoinBars (state : AppState) (sourceIds : List String)
    (resultBar : FractionBarState) : AppState :=
  { state with
      bars := state.bars.filter (fun b => !(sourceIds.contains b.id)) ++ [resultBar]
      selectedBarIds := state.selectedBarIds.filter (fun i => !(sourceIds.contains i)) }

/-- The `reducer(state, action)` method.  `self` is the receiver's
`this.state` at call time (read by `createBar` for settings defaults); in
`executeAction` it coincides with `state`, in the undo replay it stays the
pre-undo state.  `freshId` is the value `generateId()` returns if the
ADD_BAR branch runs. -/
def reducer (self state : AppState) (a : ActionKind) (freshId : String) : AppState :=
  match a with
  | .ADD_BAR p =>
      { state with bars := state.bars ++ [createBar self freshId p] }
  | .REMOVE_BAR i =>
      { state with
          bars := state.bars.filter (fun b => !(b.id = i : Bool))
          selectedBarIds := state.selectedBarIds.filter (fun x => !(x = i : Bool))
          unitBarId := if state.unitBarId = some i then none else state.unitBarId }
  | .MODIFY_BAR i ch =>
      { state with
          bars := state.bars.map (fun b => if b.id = i then mergeBar b ch else b) }
  | .SPLIT_BAR barId splits => handleSplitBar state barId splits
  | .JOIN_BARS sourceIds resultBar => handleJoinBars state sourceIds resultBar
  | .SET_UNIT_BAR i =>
      { state with
          unitBarId := some i
          bars := state.bars.map (fun b => { b with isUnitBar := b.id = i }) }
  | .CHANGE_TOOL t => { state with currentTool := t }
  | .UPDATE_SETTINGS p => { state with settings := mergeSettings state.settings p }

/-! ### Gesture classifier (TouchInteractionManager) -/

/-- `TouchPoint` from TouchInteractionManager (coordinates and times as
integers; only differences and comparisons are used). -/
structure TouchPoint where
  id : Int
  startX : Int
  startY : Int
  currentX : Int
  currentY : Int
  startTime : Int
  deriving DecidableEq, Repr

/-- The discrete intents `handleSingleTouchMove` can emit through its
callbacks: `onBarSplit(x, y, isVertical)` or `onBarDrag(deltaX, deltaY)`. -/
inductive GestureIntent where
  | barSplit (x y : Int) (isVertical : Bool)
  | barDrag (deltaX deltaY : Int)
  deriving DecidableEq, Repr

/-- `Math.abs(num) / Math.abs(den) > 2`, exactly as it evaluates in
JavaScript on the embedded integers: for `den ≠ 0` the real quotient
exceeds 2 iff `|num| > 2|den|`; for `den = 0` the quotient is `Infinity`
(`> 2` true) when `|num| > 0` and `NaN` (`> 2` false) when `num = 0` —
both cases also agree with `|num| > 2|den|`. -/
def ratioExceedsTwo (num den : Int) : Bool :=
  2 * den.natAbs < num.natAbs

/-- `TouchInteractionManager.handleSingleTouchMove`, as a function of the
single active touch point, returning the emitted intent (if any). -/
def handleSingleTouchMove (t : TouchPoint) : Option GestureIntent :=
  let deltaX := t.currentX - t.startX
  let deltaY := t.currentY - t.startY
  if 10 < deltaX.natAbs ∨ 10 < deltaY.natAbs then
    if ratioExceedsTwo deltaY deltaX then
      some (.barSplit t.currentX t.currentY true)
    else if ratioExceedsTwo deltaX deltaY then
      some (.barSplit t.currentX t.currentY false)
    else
      some (.barDrag deltaX deltaY)
  else
    none

/-- The single-pointer move classification as C7 words it: no intent while
both deltas are within the 10 px threshold, then vertical split when
`|deltaY|/|deltaX| > 2`, horizontal split when `|deltaX|/|deltaY| > 2`,
otherwise a drag carrying the deltas. -/
def claimSingleTouchIntent (t : TouchPoint) : Option GestureIntent :=
  let deltaX := t.currentX - t.startX
  let deltaY := t.currentY - t.startY
  if deltaX.natAbs ≤ 10 ∧ deltaY.natAbs ≤ 10 then
    none
  else if 2 * deltaX.natAbs < deltaY.natAbs then
    some (.barSplit t.currentX t.currentY true)
  else if 2 * deltaY.natAbs < deltaX.natAbs then
    some (.barSplit t.currentX t.currentY false)
  else
    some (.barDrag deltaX deltaY)

/-! ### The state manager -/

/-- `maxHistorySize` (100). -/
def maxHistorySize : Nat := 100

/-- The mutable fields of a `StateManager` instance, plus the entropy
stream `ids`/`idIdx` standing for `generateId`'s future return values and
the `notified` log of subscriber broadcasts (see the file header). -/
structure Manager where
  state : AppState
  history : List Action
  future : List Action
  batchOperation : Bool
  batchedActions : List Action
  notified : List AppState
  ids : Nat → String
  idIdx : Nat

/-- How many `generateId()` calls one reduction of this action performs
(only the ADD_BAR branch calls `createBar`, which calls it exactly once). -/
def idsConsumed : ActionKind → Nat
  | .ADD_BAR _ => 1
  | _ => 0

/-- `updateState(newState)`: store the state and notify all subscribers. -/
def updateState (m : Manager) (s : AppState) : Manager :=
  { m with state := s, notified := m.notified ++ [s] }

/-- `this.history.push(action)` followed by the bound check
`if (this.history.length > this.maxHistorySize) this.history.shift()`. -/
def trimPush (h : List Action) (a : Action) : List Action :=
  let h0 := h ++ [a]
  if maxHistorySize < h0.length then h0.tail else h0

/-- `executeAction(action)`: clear the future buffer if non-empty, append
to the bounded history, reduce (with `this.state` as both receiver state
and reducer argument, drawing one fresh id if needed), and publish. -/
def executeAction (m : Manager) (a : Action) : Manager :=
  let m1 := if 0 < m.future.length then { m with future := ([] : List Action) } else m
  let m2 := { m1 with history := trimPush m1.history a }
  let newState := reducer m2.state m2.state a.kind (m2.ids m2.idIdx)
  updateState { m2 with idIdx := m2.idIdx + idsConsumed a.kind } newState

/-- `dispatch(action)` with the `Date.now()` value `ts`: buffer while a
batch window is open, otherwise execute immediately. -/
def dispatchM (m : Manager) (k : ActionKind) (ts : Int) : Manager :=
  if m.batchOperation then
    { m with batchedActions := m.batchedActions ++ [Action.mk k ts] }
  else
    executeAction m (Action.mk k ts)

/-- One step of undo's replay loop: reduce with `this.state` (`self`) as
receiver, the accumulating state, and the next id from the stream. -/
def replayStep (self : AppState) (ids : Nat → String) (p : AppState × Nat)
    (a : Action) : AppState × Nat :=
  (reducer self p.1 a.kind (ids p.2), p.2 + idsConsumed a.kind)

/-- `this.history.forEach(action => newState = this.reducer(newState, action))`,
threading the entropy cursor. -/
def replayAll (self : AppState) (ids : Nat → String) (init : AppState × Nat)
    (acts : List Action) : AppState × Nat :=
  acts.foldl (replayStep self ids) init

/-- `undo()`: no-op on empty history; otherwise pop the last action onto
the future buffer, rebuild the state by replaying the remaining history
from `createInitialState()` (no argument: the built-in defaults), publish. -/
def undoM (m : Manager) : Manager :=
  match m.history.getLast? with
  | none => m
  | some a =>
      let remaining := m.history.dropLast
      let r := replayAll m.state m.ids (createInitialState none, m.idIdx) remaining
      updateState
        { m with history := remaining, future := m.future ++ [a], idIdx := r.2 } r.1

/-- `redo()`: no-op on empty future; otherwise pop the most recently
undone action and run it through `executeAction`. -/
def redoM (m : Manager) : Manager :=
  match m.future.getLast? with
  | none => m
  | some a => executeAction { m with future := m.future.dropLast } a

/-- `batch(callback)` for a callback whose effect is to dispatch the given
kind/timestamp pairs in order: open the window (every dispatch then only
buffers), flush the buffer through `executeAction`, close the window. -/
def batchM (m : Manager) (acts : List (ActionKind × Int)) : Manager :=
  let m1 := { m with batchOperation := true, batchedActions := [] }
  let m2 := acts.foldl (fun mm kt => dispatchM mm kt.1 kt.2) m1
  let m3 :=
    if 0 < m2.batchedActions.length then m2.batchedActions.foldl executeAction m2
    else m2
  { m3 with batchOperation := false, batchedActions := [] }

/-- The constructor `new StateManager(initialState?)` with the entropy
stream `ids` for later `generateId()` calls. -/
def mkManager (p : Option AppStatePatch) (ids : Nat → String) : Manager :=
  { state := createInitialState p
    history := []
    future := []
    batchOperation := false
    batchedActions := []
    notified := []
    ids := ids
    idIdx := 0 }

/-- A sequence of `dispatch` calls in order. -/
def dispatchList (m : Manager) (acts : List (ActionKind × Int)) : Manager :=
  acts.foldl (fun mm kt => dispatchM mm kt.1 kt.2) m

/-- A fixed entropy stream used for concrete instances. -/
def ids0 : Nat → String := fun n => "fresh" ++ toString n

/-- A concrete bar used by counterexamples and witnesses. -/
def sampleBar : FractionBarState :=
  { id := "a", x := 10, y := 20, width := 100, height := 60, color := "#FFFF66",
    isSelected := false, isUnitBar := false, label := none, fraction := none,
    splits := [] }

/-! ### Projection lemmas for `executeAction` -/

theorem executeAction_state (m : Manager) (a : Action) :
    (executeAction m a).state = reducer m.state m.state a.kind (m.ids m.idIdx) := by
  cases hf : m.future with
  | nil => simp [executeAction, updateState, hf]
  | cons x xs => simp [executeAction, updateState, hf]

theorem executeAction_history (m : Manager) (a : Action) :
    (executeAction m a).history = trimPush m.history a := by
  cases hf : m.future with
  | nil => simp [executeAction, updateState, hf]
  | cons x xs => simp [executeAction, updateState, hf]

theorem executeAction_notified (m : Manager) (a : Action) :
    (executeAction m a).notified
      = m.notified ++ [reducer m.state m.state a.kind (m.ids m.idIdx)] := by
  cases hf : m.future with
  | nil => simp [executeAction, updateState, hf]
  | cons x xs => simp [executeAction, updateState, hf]

theorem executeAction_batchOperation (m : Manager) (a : Action) :
    (executeAction m a).batchOperation = m.batchOperation := by
  cases hf : m.future with
  | nil => simp [executeAction, updateState, hf]
  | cons x xs => simp [executeAction, updateState, hf]

theorem executeAction_ids (m : Manager) (a : Action) :
    (executeAction m a).ids = m.ids := by
  cases hf : m.future with
  | nil => simp [executeAction, updateState, hf]
  | cons x xs => simp [executeAction, updateState, hf]

theorem executeAction_idIdx (m : Manager) (a : Action) :
    (executeAction m a).idIdx = m.idIdx + idsConsumed a.kind := by
  cases hf : m.future with
  | nil => simp [executeAction, updateState, hf]
  | cons x xs => simp [executeAction, updateState, hf]

/-! ### C7: single-pointer move classification -/

/-- C7: on every move with exactly one active pointer, no intent is
emitted while both `|deltaX|` and `|deltaY|` are within the 10 px drag
threshold; otherwise a vertical split intent at the current point when
`|deltaY|/|deltaX| > 2`, a horizontal split intent when
`|deltaX|/|deltaY| > 2`, and a drag intent carrying `(deltaX, deltaY)`
otherwise.  In particular (Δx=2,Δy=20) is a vertical split, (20,2) a
horizontal split, (15,15) a drag, and (3,3) no intent. -/
theorem C7_single_pointer_move_classification :
    (∀ t : TouchPoint, handleSingleTouchMove t = claimSingleTouchIntent t) ∧
    handleSingleTouchMove ⟨1, 0, 0, 2, 20, 0⟩ = some (.barSplit 2 20 true) ∧
    handleSingleTouchMove ⟨1, 0, 0, 20, 2, 0⟩ = some (.barSplit 20 2 false) ∧
    handleSingleTouchMove ⟨1, 0, 0, 15, 15, 0⟩ = some (.barDrag 15 15) ∧
    handleSingleTouchMove ⟨1, 0, 0, 3, 3, 0⟩ = none := by
  refine ⟨?_, by decide, by decide, by decide, by decide⟩
  intro t
  simp only [handleSingleTouchMove, claimSingleTouchIntent, ratioExceedsTwo,
    decide_eq_true_eq]
  split_ifs <;> first | rfl | omega

/-! ### C10: JOIN_BARS frame effect -/

/-- C10: a JOIN_BARS action keeps every bar whose id is not a source id,
unchanged and in the original relative order, appends the result bar at
the end of the bar sequence, keeps exactly the non-source selected ids in
order, and leaves `currentTool`, `unitBarId`, `settings` (and `version`)
untouched. -/
theorem C10_join_bars_frame_effect :
    ∀ (self s : AppState) (src : List String) (rb : FractionBarState) (g : String),
      (reducer self s (.JOIN_BARS src rb) g).bars
          = s.bars.filter (fun b => !(src.contains b.id)) ++ [rb] ∧
      (reducer self s (.JOIN_BARS src rb) g).bars.getLast? = some rb ∧
      (reducer self s (.JOIN_BARS src rb) g).selectedBarIds
          = s.selectedBarIds.filter (fun i => !(src.contains i)) ∧
      (reducer self s (.JOIN_BARS src rb) g).currentTool = s.currentTool ∧
      (reducer self s (.JOIN_BARS src rb) g).unitBarId = s.unitBarId ∧
      (reducer self s (.JOIN_BARS src rb) g).settings = s.settings ∧
      (reducer self s (.JOIN_BARS src rb) g).version = s.version := by
  intro self s src rb g
  refine ⟨rfl, ?_, rfl, rfl, rfl, rfl, rfl⟩
  simp [reducer, handleJoinBars, List.getLast?_concat]

/-! ### C5: bar id immutability under MODIFY_BAR -/

/-- C5 counterexample: a MODIFY_BAR whose `changes` object carries an `id`
field rewrites the bar's id (the spread `{ ...bar, ...changes }` copies it
over), so the id sequence is not preserved for arbitrary payloads. -/
theorem C5_counterexample_modify_bar_changes_id :
    (reducer defaultAppState { defaultAppState with bars := [sampleBar] }
        (.MODIFY_BAR "a" { id := some "b" }) "fresh0").bars.map
          (fun b => b.id)
      ≠ ({ defaultAppState with bars := [sampleBar] } : AppState).bars.map
          (fun b => b.id) := by
  decide

theorem map_modify_id (i : String) (ch : BarPatch) (h : ch.id = none) :
    ∀ l : List FractionBarState,
      (l.map (fun b => if b.id = i then mergeBar b ch else b)).map (fun b => b.id)
        = l.map (fun b => b.id) := by
  intro l
  induction l with
  | nil => rfl
  | cons b l ih =>
      simp only [List.map_cons, ih, List.cons.injEq, and_true]
      by_cases hb : b.id = i
      · simp [hb, mergeBar, h]
      · simp [hb]

/-- C5 (amended): for every MODIFY_BAR whose `changes` does not carry an
`id` field, the sequence of bar ids of the resulting state equals that of
the input state. -/
theorem C5_modify_bar_preserves_ids (self s : AppState) (i : String)
    (ch : BarPatch) (g : String) (h : ch.id = none) :
    (reducer self s (.MODIFY_BAR i ch) g).bars.map (fun b => b.id)
      = s.bars.map (fun b => b.id) := by
  simpa [reducer] using map_modify_id i ch h s.bars

/-- C5 witness: the amended theorem applied to a concrete state and a
concrete id-free change set. -/
theorem C5_witness :
    (reducer defaultAppState { defaultAppState with bars := [sampleBar] }
        (.MODIFY_BAR "a" { x := some 5 }) "fresh0").bars.map (fun b => b.id)
      = ({ defaultAppState with bars := [sampleBar] } : AppState).bars.map
          (fun b => b.id) :=
  C5_modify_bar_preserves_ids defaultAppState _ "a" { x := some 5 } "fresh0" rfl

/-! ### C3: reducer determinism -/

/-- C3 counterexample: the ADD_BAR branch calls `generateId()`
(`Date.now()` and `Math.random()`), modelled by the explicit `freshId`
input; two evaluations of the reducer on the identical `(state, action)`
pair draw different ids and produce structurally different states. -/
theorem C3_counterexample_add_bar_nondeterministic :
    reducer defaultAppState defaultAppState (.ADD_BAR {}) "fresh0"
      ≠ reducer defaultAppState defaultAppState (.ADD_BAR {}) "fresh1" := by
  decide

/-- An action whose reduction does not depend on the generated id: every
action except an ADD_BAR whose payload omits `id`. -/
def idFree : ActionKind → Bool
  | .ADD_BAR p => p.id.isSome
  | _ => true

/-- C3 (amended): for every action that is not an ADD_BAR with an absent
payload id, the reducer's output is independent of the generated id, so
evaluating it twice on the identical `(state, action)` pair yields
structurally equal outputs.  (The input state is never mutated: the
embedding is a pure function of it.) -/
theorem C3_reducer_deterministic (self s : AppState) (a : ActionKind)
    (g g' : String) (h : idFree a = true) :
    reducer self s a g = reducer self s a g' := by
  cases a with
  | ADD_BAR p =>
      simp only [idFree, Option.isSome_iff_exists] at h
      obtain ⟨v, hv⟩ := h
      simp [reducer, createBar, hv]
  | REMOVE_BAR i => rfl
  | MODIFY_BAR i ch => rfl
  | SPLIT_BAR b sp => rfl
  | JOIN_BARS src rb => rfl
  | SET_UNIT_BAR i => rfl
  | CHANGE_TOOL t => rfl
  | UPDATE_SETTINGS p => rfl

/-- C3 witness: the amended determinism at a concrete ADD_BAR whose
payload carries an explicit id. -/
theorem C3_witness :
    reducer defaultAppState defaultAppState (.ADD_BAR { id := some "a" }) "fresh0"
      = reducer defaultAppState defaultAppState (.ADD_BAR { id := some "a" }) "fresh1" :=
  C3_reducer_deterministic defaultAppState defaultAppState
    (.ADD_BAR { id := some "a" }) "fresh0" "fresh1" (by decide)

/-! ### C1: undo/redo round trip -/

/-- A default-constructed manager after dispatching CHANGE_TOOL "split"
then CHANGE_TOOL "join". -/
def mC1 : Manager :=
  dispatchM (dispatchM (mkManager none ids0) (.CHANGE_TOOL "split") 0)
    (.CHANGE_TOOL "join") 1

/-- C1: the undo/redo round trip fails in the code.  After two dispatches,
two undos and two redos, the first `redo()` runs through `executeAction`,
which clears the remaining future buffer, so the second `redo()` is a
no-op: the final state still has `currentTool = "split"` instead of the
post-dispatch `"join"`. -/
theorem C1_undo_redo_roundtrip_fails :
    mC1.state.currentTool = "join" ∧
    (redoM (redoM (undoM (undoM mC1)))).state.currentTool = "split" ∧
    (redoM (redoM (undoM (undoM mC1)))).state ≠ mC1.state := by
  decide

/-! ### C8: absent-id dispatches -/

/-- C8 counterexample: the state with `unitBarId = "x"` and no bars is
reachable (SET_UNIT_BAR sets `unitBarId` without checking that a bar
matches), and REMOVE_BAR "x" on it is not a no-op: it resets `unitBarId`
to `undefined` even though the id matches no bar. -/
theorem C8_counterexample_remove_bar_ghost_refs :
    reducer defaultAppState defaultAppState (.SET_UNIT_BAR "x") "fresh0"
        = { defaultAppState with unitBarId := some "x" } ∧
    (∀ b ∈ ({ defaultAppState with unitBarId := some "x" } : AppState).bars,
        ¬ b.id = "x") ∧
    reducer defaultAppState { defaultAppState with unitBarId := some "x" }
        (.REMOVE_BAR "x") "fresh1"
      ≠ { defaultAppState with unitBarId := some "x" } := by
  decide

theorem map_eq_self_of_eq {α : Type} (f : α → α) :
    ∀ l : List α, (∀ b ∈ l, f b = b) → l.map f = l := by
  intro l h
  induction l with
  | nil => rfl
  | cons x xs ih =>
      simp only [List.map_cons]
      rw [h x (by simp), ih (fun b hb => h b (by simp [hb]))]

/-- C8 (amended): MODIFY_BAR and SPLIT_BAR whose id matches no bar return
a state structurally equal to the input; REMOVE_BAR does too provided the
absent id additionally occurs neither in `selectedBarIds` nor as the
`unitBarId` (otherwise it still scrubs those references). -/
theorem C8_absent_id_noops :
    (∀ (self s : AppState) (i : String) (ch : BarPatch) (g : String),
        (∀ b ∈ s.bars, ¬ b.id = i) →
          reducer self s (.MODIFY_BAR i ch) g = s) ∧
    (∀ (self s : AppState) (i : String) (sp : List SplitState) (g : String),
        (∀ b ∈ s.bars, ¬ b.id = i) →
          reducer self s (.SPLIT_BAR i sp) g = s) ∧
    (∀ (self s : AppState) (i : String) (g : String),
        (∀ b ∈ s.bars, ¬ b.id = i) → i ∉ s.selectedBarIds →
          ¬ s.unitBarId = some i →
          reducer self s (.REMOVE_BAR i) g = s) := by
  refine ⟨?_, ?_, ?_⟩
  · intro self s i ch g h
    simp only [reducer]
    rw [map_eq_self_of_eq _ _ (fun b hb => by rw [if_neg (h b hb)])]
  · intro self s i sp g h
    simp only [reducer, handleSplitBar]
    rw [map_eq_self_of_eq _ _ (fun b hb => by rw [if_neg (h b hb)])]
  · intro self s i g hb hsel hu
    have h1 : s.bars.filter (fun b => !(b.id = i : Bool)) = s.bars :=
      List.filter_eq_self.mpr (fun a ha => by simpa using hb a ha)
    have h2 : s.selectedBarIds.filter (fun x => !(x = i : Bool)) = s.selectedBarIds :=
      List.filter_eq_self.mpr (fun a ha => by
        simp only [Bool.not_eq_eq_eq_not, Bool.not_true, decide_eq_false_iff_not]
        exact fun hc => hsel (hc ▸ ha))
    simp only [reducer]
    rw [h1, h2, if_neg hu]

/-- C8 witness: the amended no-op equalities at a concrete state holding
one bar and an id ("zzz") that matches nothing. -/
theorem C8_witness :
    reducer defaultAppState { defaultAppState with bars := [sampleBar] }
        (.MODIFY_BAR "zzz" { x := some 1 }) "fresh0"
      = { defaultAppState with bars := [sampleBar] } ∧
    reducer defaultAppState { defaultAppState with bars := [sampleBar] }
        (.SPLIT_BAR "zzz" []) "fresh0"
      = { defaultAppState with bars := [sampleBar] } ∧
    reducer defaultAppState { defaultAppState with bars := [sampleBar] }
        (.REMOVE_BAR "zzz") "fresh0"
      = { defaultAppState with bars := [sampleBar] } :=
  ⟨C8_absent_id_noops.1 _ _ _ _ _ (by decide),
   C8_absent_id_noops.2.1 _ _ _ _ _ (by decide),
   C8_absent_id_noops.2.2 _ _ _ _ (by decide) (by decide) (by decide)⟩

/-! ### Shared lemmas on the bounded history and the flush loop -/

theorem foldl_trimPush :
    ∀ (l : List Action) (h : List Action), h.length ≤ maxHistorySize →
      l.foldl trimPush h = (h ++ l).drop (h.length + l.length - maxHistorySize) := by
  intro l
  induction l with
  | nil =>
      intro h hh
      simp only [List.foldl_nil, List.append_nil, List.length_nil, Nat.add_zero]
      rw [Nat.sub_eq_zero_of_le hh, List.drop_zero]
  | cons a l ih =>
      intro h hh
      rw [List.foldl_cons]
      by_cases hcase : h.length + 1 ≤ maxHistorySize
      · have htp : trimPush h a = h ++ [a] := by
          simp only [trimPush, List.length_append, List.length_cons, List.length_nil]
          rw [if_neg (by omega)]
        rw [htp, ih (h ++ [a]) (by simpa using hcase)]
        simp only [List.length_append, List.length_cons, List.length_nil,
          List.append_assoc, List.singleton_append]
        congr 1
        omega
      · have hlen : h.length = maxHistorySize := by omega
        obtain ⟨x, h', rfl⟩ : ∃ x h', h = x :: h' := by
          cases h with
          | nil => simp [maxHistorySize] at hlen
          | cons x h' => exact ⟨x, h', rfl⟩
        have hlen' : h'.length + 1 = maxHistorySize := by simpa using hlen
        have htp : trimPush (x :: h') a = h' ++ [a] := by
          simp only [trimPush, List.length_append, List.length_cons, List.length_nil]
          rw [if_pos (by omega)]
          simp
        rw [htp, ih (h' ++ [a])
          (by simp only [List.length_append, List.length_cons, List.length_nil]; omega)]
        have e1 : ((h' ++ [a]) ++ l) = h' ++ a :: l := by simp
        have e2 : ((x :: h') ++ a :: l) = x :: (h' ++ a :: l) := by simp
        have e3 : (x :: h').length + (a :: l).length - maxHistorySize
            = ((h' ++ [a]).length + l.length - maxHistorySize) + 1 := by
          simp only [List.length_cons, List.length_append, List.length_nil]
          omega
        rw [e1, e2, e3, List.drop_succ_cons]

theorem foldl_executeAction_history :
    ∀ (l : List Action) (m : Manager),
      (l.foldl executeAction m).history = l.foldl trimPush m.history := by
  intro l
  induction l with
  | nil => intro m; rfl
  | cons a l ih =>
      intro m
      rw [List.foldl_cons, List.foldl_cons, ih, executeAction_history]

theorem foldl_executeAction_notified_length :
    ∀ (l : List Action) (m : Manager),
      (l.foldl executeAction m).notified.length = m.notified.length + l.length := by
  intro l
  induction l with
  | nil => intro m; rfl
  | cons a l ih =>
      intro m
      rw [List.foldl_cons, ih, executeAction_notified]
      simp
      omega

theorem foldl_executeAction_notified_getLast :
    ∀ (l : List Action) (m : Manager), l ≠ [] →
      (l.foldl executeAction m).notified.getLast?
        = some (l.foldl executeAction m).state := by
  intro l
  induction l with
  | nil => intro m h; exact absurd rfl h
  | cons a l ih =>
      intro m _
      cases l with
      | nil =>
          simp only [List.foldl_cons, List.foldl_nil]
          rw [executeAction_notified, executeAction_state, List.getLast?_concat]
      | cons b l' => exact ih (executeAction m a) (by simp)

theorem foldl_executeAction_batchOperation :
    ∀ (l : List Action) (m : Manager),
      (l.foldl executeAction m).batchOperation = m.batchOperation := by
  intro l
  induction l with
  | nil => intro m; rfl
  | cons a l ih =>
      intro m
      rw [List.foldl_cons, ih, executeAction_batchOperation]

theorem dispatchList_eq_foldl_executeAction :
    ∀ (acts : List (ActionKind × Int)) (m : Manager), m.batchOperation = false →
      dispatchList m acts
        = (acts.map (fun kt => Action.mk kt.1 kt.2)).foldl executeAction m := by
  intro acts
  induction acts with
  | nil => intro m _; rfl
  | cons kt rest ih =>
      intro m hm
      simp only [dispatchList, List.foldl_cons, List.map_cons]
      have hd : dispatchM m kt.1 kt.2 = executeAction m (Action.mk kt.1 kt.2) := by
        simp [dispatchM, hm]
      rw [hd]
      exact ih (executeAction m (Action.mk kt.1 kt.2))
        (by rw [executeAction_batchOperation, hm])

/-! ### C6: history log bound -/

/-- C6: dispatching more than 100 actions (outside a batch, on a fresh
default manager) leaves exactly the most recent 100 in the history log,
in dispatch order with the oldest evicted first; and `undo()` on an empty
log is a no-op. -/
theorem C6_history_log_bound :
    (∀ (ids : Nat → String) (acts : List (ActionKind × Int)),
        maxHistorySize < acts.length →
          (dispatchList (mkManager none ids) acts).history
              = (acts.map (fun kt => Action.mk kt.1 kt.2)).drop
                  (acts.length - maxHistorySize)
            ∧ (dispatchList (mkManager none ids) acts).history.length
                = maxHistorySize) ∧
    (∀ m : Manager, m.history = [] → undoM m = m) := by
  constructor
  · intro ids acts hlen
    rw [dispatchList_eq_foldl_executeAction acts _ rfl,
      foldl_executeAction_history]
    have hbase : (mkManager none ids).history = [] := rfl
    rw [hbase, foldl_trimPush _ [] (by simp)]
    constructor
    · simp
    · rw [List.length_drop]
      simp only [List.nil_append, List.length_nil, List.length_map, Nat.zero_add]
      omega
  · intro m hm
    simp [undoM, hm]

/-- C6 witness: 101 CHANGE_TOOL dispatches keep the most recent 100, and
undo on a fresh (empty-log) manager is the identity. -/
theorem C6_witness :
    ((dispatchList (mkManager none ids0)
          (List.replicate 101 (ActionKind.CHANGE_TOOL "x", (0 : Int)))).history
        = ((List.replicate 101 (ActionKind.CHANGE_TOOL "x", (0 : Int))).map
              (fun kt => Action.mk kt.1 kt.2)).drop
            ((List.replicate 101 (ActionKind.CHANGE_TOOL "x", (0 : Int))).length
              - maxHistorySize)
      ∧ (dispatchList (mkManager none ids0)
            (List.replicate 101 (ActionKind.CHANGE_TOOL "x", (0 : Int)))).history.length
          = maxHistorySize) ∧
    undoM (mkManager none ids0) = mkManager none ids0 :=
  ⟨C6_history_log_bound.1 ids0 _ (by decide),
   C6_history_log_bound.2 (mkManager none ids0) rfl⟩

/-! ### C2: batching -/

theorem dispatchM_buffering (m : Manager) (hm : m.batchOperation = true)
    (k : ActionKind) (t : Int) :
    dispatchM m k t = { m with batchedActions := m.batchedActions ++ [Action.mk k t] } := by
  simp [dispatchM, hm]

theorem batch_buffer_fold :
    ∀ (acts : List (ActionKind × Int)) (m : Manager), m.batchOperation = true →
      acts.foldl (fun mm kt => dispatchM mm kt.1 kt.2) m
        = { m with batchedActions :=
              m.batchedActions ++ acts.map (fun kt => Action.mk kt.1 kt.2) } := by
  intro acts
  induction acts with
  | nil => intro m hm; simp
  | cons kt rest ih =>
      intro m hm
      rw [List.foldl_cons, dispatchM_buffering m hm, ih _ (by simpa using hm)]
      simp

/-- C2 counterexample: a batch whose callback dispatches two actions makes
every subscriber's callback run twice (once per flushed action), not
exactly once. -/
theorem C2_counterexample_two_notifications :
    (batchM (mkManager none ids0)
        [(.CHANGE_TOOL "split", 0), (.CHANGE_TOOL "join", 1)]).notified.length = 2 ∧
    ¬ (batchM (mkManager none ids0)
        [(.CHANGE_TOOL "split", 0), (.CHANGE_TOOL "join", 1)]).notified.length = 1 := by
  decide

/-- C2 (amended): for a `batch(fn)` whose `fn` dispatches `k` actions
(with room left in the history log), every subscriber's callback is
invoked exactly `k` times — once per flushed action, the last time with
the final post-batch state — and each of the `k` actions is appended to
the history log as an individual entry. -/
theorem C2_batch_logs_individually_notifies_per_action :
    ∀ (m : Manager) (acts : List (ActionKind × Int)),
      m.history.length + acts.length ≤ maxHistorySize →
        (batchM m acts).notified.length = m.notified.length + acts.length ∧
        (batchM m acts).history
            = m.history ++ acts.map (fun kt => Action.mk kt.1 kt.2) ∧
        (acts ≠ [] →
          (batchM m acts).notified.getLast? = some (batchM m acts).state) := by
  intro m acts hlen
  cases acts with
  | nil =>
      refine ⟨by simp [batchM], by simp [batchM], by intro h; simp at h⟩
  | cons kt rest =>
      have hfold := batch_buffer_fold (kt :: rest)
        { m with batchOperation := true, batchedActions := [] } rfl
      simp only [List.nil_append] at hfold
      have hbatch : batchM m (kt :: rest)
          = { ((kt :: rest).map (fun kt => Action.mk kt.1 kt.2)).foldl executeAction
                { m with batchOperation := true,
                         batchedActions :=
                           (kt :: rest).map (fun kt => Action.mk kt.1 kt.2) } with
              batchOperation := false, batchedActions := [] } := by
        rw [batchM, hfold]
        rw [if_pos (by simp)]
      rw [hbatch]
      refine ⟨?_, ?_, ?_⟩
      · have h := foldl_executeAction_notified_length
          ((kt :: rest).map (fun kt => Action.mk kt.1 kt.2))
          { m with batchOperation := true,
                   batchedActions := (kt :: rest).map (fun kt => Action.mk kt.1 kt.2) }
        rw [List.length_map] at h
        exact h
      · have h := foldl_executeAction_history
          ((kt :: rest).map (fun kt => Action.mk kt.1 kt.2))
          { m with batchOperation := true,
                   batchedActions := (kt :: rest).map (fun kt => Action.mk kt.1 kt.2) }
        have h2 : (((kt :: rest).map (fun kt => Action.mk kt.1 kt.2)).foldl executeAction
              { m with batchOperation := true,
                       batchedActions := (kt :: rest).map (fun kt => Action.mk kt.1 kt.2) }).history
            = List.foldl trimPush m.history
                ((kt :: rest).map (fun kt => Action.mk kt.1 kt.2)) := h
        rw [foldl_trimPush _ m.history
          (by simp only [List.length_cons, List.length_map] at hlen ⊢; omega)] at h2
        have hz : m.history.length
            + ((kt :: rest).map (fun kt => Action.mk kt.1 kt.2)).length
            - maxHistorySize = 0 := by
          simp only [List.length_map, List.length_cons] at hlen ⊢
          omega
        rw [hz, List.drop_zero] at h2
        exact h2
      · intro _
        exact foldl_executeAction_notified_getLast _ _ (by simp)

/-- C2 witness: the amended statement at a concrete one-action batch. -/
theorem C2_witness :
    (batchM (mkManager none ids0) [(.CHANGE_TOOL "split", 0)]).notified.length
        = (mkManager none ids0).notified.length + 1 ∧
    (batchM (mkManager none ids0) [(.CHANGE_TOOL "split", 0)]).history
        = (mkManager none ids0).history ++ [Action.mk (.CHANGE_TOOL "split") 0] ∧
    (batchM (mkManager none ids0) [(.CHANGE_TOOL "split", 0)]).notified.getLast?
        = some (batchM (mkManager none ids0) [(.CHANGE_TOOL "split", 0)]).state := by
  have h := C2_batch_logs_individually_notifies_per_action (mkManager none ids0)
    [(.CHANGE_TOOL "split", 0)] (by decide)
  exact ⟨h.1, h.2.1, h.2.2 (by decide)⟩

/-! ### C4: unit-bar exclusivity -/

/-- Number of bars flagged as the unit bar. -/
def unitCount (s : AppState) : Nat := s.bars.countP (fun b => b.isUnitBar)

/-- The sequence of bar ids. -/
def barIds (s : AppState) : List String := s.bars.map (fun b => b.id)

/-- The invariant C4 is about, strengthened by id uniqueness (which
SET_UNIT_BAR needs, since it marks every bar whose id matches). -/
def StateInv (s : AppState) : Prop := unitCount s ≤ 1 ∧ (barIds s).Nodup

/-- Payload conditions under which one action preserves `StateInv`: no
ADD_BAR payload or MODIFY_BAR change set may plant `isUnitBar = true` or
a duplicate/changed id, and a JOIN_BARS result bar may not be a unit bar
or reuse a surviving id.  (`g` is the id the reduction would generate.) -/
def tameKind (s : AppState) (g : String) : ActionKind → Bool
  | .ADD_BAR p =>
      !(p.isUnitBar = some true : Bool) && !((barIds s).contains (p.id.getD g))
  | .MODIFY_BAR _ ch => !(ch.isUnitBar = some true : Bool) && ch.id.isNone
  | .JOIN_BARS src rb =>
      !rb.isUnitBar &&
        !(((s.bars.filter (fun b => !(src.contains b.id))).map
              (fun b => b.id)).contains rb.id)
  | _ => true

/-- Every dispatch of the trace is tame for the state it executes in. -/
def tameTrace : Manager → List (ActionKind × Int) → Bool
  | _, [] => true
  | m, kt :: rest =>
      tameKind m.state (m.ids m.idIdx) kt.1
        && tameTrace (dispatchM m kt.1 kt.2) rest

theorem countP_unit_map_le (f : FractionBarState → FractionBarState)
    (hf : ∀ b, (f b).isUnitBar = true → b.isUnitBar = true) :
    ∀ l : List FractionBarState,
      (l.map f).countP (fun b => b.isUnitBar) ≤ l.countP (fun b => b.isUnitBar) := by
  intro l
  induction l with
  | nil => simp
  | cons b l ih =>
      rw [List.map_cons, List.countP_cons, List.countP_cons]
      have hb := hf b
      cases hfb : (f b).isUnitBar <;> cases hbb : b.isUnitBar <;> simp_all
      all_goals omega

theorem map_ids_of_preserve (f : FractionBarState → FractionBarState)
    (hf : ∀ b, (f b).id = b.id) :
    ∀ l : List FractionBarState,
      (l.map f).map (fun b => b.id) = l.map (fun b => b.id) := by
  intro l
  induction l with
  | nil => rfl
  | cons b l ih => simp [hf, ih]

theorem countP_id_le_one (i : String) :
    ∀ l : List FractionBarState, (l.map (fun b => b.id)).Nodup →
      l.countP (fun b => b.id = i) ≤ 1 := by
  intro l
  induction l with
  | nil => simp
  | cons b l ih =>
      intro h
      rw [List.map_cons, List.nodup_cons] at h
      rw [List.countP_cons]
      by_cases hb : b.id = i
      · have hz : l.countP (fun b => b.id = i) = 0 := by
          rw [List.countP_eq_zero]
          intro c hc
          simp only [decide_eq_true_eq]
          intro hceq
          have hmem : c.id ∈ l.map (fun b => b.id) := List.mem_map_of_mem _ hc
          rw [hceq, ← hb] at hmem
          exact h.1 hmem
        rw [hz]
        simp [hb]
      · rw [if_neg (by simp [hb])]
        simpa using ih h.2

theorem reducer_preserves_inv (self s : AppState) (a : ActionKind) (g : String)
    (hs : StateInv s) (ht : tameKind s g a = true) :
    StateInv (reducer self s a g) := by
  obtain ⟨hcount, hnodup⟩ := hs
  cases a with
  | ADD_BAR p =>
      simp only [tameKind, Bool.and_eq_true, Bool.not_eq_true',
        decide_eq_false_iff_not] at ht
      obtain ⟨h1, h2⟩ := ht
      have hid : (createBar self g p).isUnitBar = false := by
        simp only [createBar]
        cases hp : p.isUnitBar with
        | none => rfl
        | some v =>
            cases v with
            | false => rfl
            | true => exact absurd hp h1
      have hnew : (createBar self g p).id = p.id.getD g := rfl
      have h2' : p.id.getD g ∉ barIds s := by
        intro hmem
        have hc : ((barIds s).contains (p.id.getD g)) = true := by simpa using hmem
        rw [hc] at h2
        exact Bool.noConfusion h2
      constructor
      · show (s.bars ++ [createBar self g p]).countP (fun b => b.isUnitBar) ≤ 1
        rw [List.countP_append, List.countP_singleton, hid]
        simpa using hcount
      · show ((s.bars ++ [createBar self g p]).map (fun b => b.id)).Nodup
        rw [List.map_append]
        rw [List.nodup_append]
        refine ⟨hnodup, by simp, ?_⟩
        intro x hx
        simp only [List.map_cons, List.map_nil, List.mem_singleton, hnew]
        intro hxe
        rw [hxe] at hx
        exact h2' hx
  | REMOVE_BAR i =>
      constructor
      · show (s.bars.filter (fun b => !(b.id = i : Bool))).countP
            (fun b => b.isUnitBar) ≤ 1
        exact le_trans ((List.filter_sublist _).countP_le _) hcount
      · show ((s.bars.filter (fun b => !(b.id = i : Bool))).map
            (fun b => b.id)).Nodup
        exact ((List.filter_sublist _).map _).nodup hnodup
  | MODIFY_BAR i ch =>
      simp only [tameKind, Bool.and_eq_true, Bool.not_eq_true',
        decide_eq_false_iff_not, Option.isNone_iff_eq_none] at ht
      obtain ⟨h1, h2⟩ := ht
      have hfu : ∀ b : FractionBarState,
          ((if b.id = i then mergeBar b ch else b)).isUnitBar = true →
            b.isUnitBar = true := by
        intro b
        by_cases hb : b.id = i
        · rw [if_pos hb]
          simp only [mergeBar]
          cases hc : ch.isUnitBar with
          | none => simp
          | some v =>
              cases v with
              | false => simp
              | true => exact absurd hc h1
        · rw [if_neg hb]
          exact id
      have hfi : ∀ b : FractionBarState,
          ((if b.id = i then mergeBar b ch else b)).id = b.id := by
        intro b
        by_cases hb : b.id = i
        · rw [if_pos hb]
          simp [mergeBar, h2]
        · rw [if_neg hb]
      constructor
      · exact le_trans (countP_unit_map_le _ hfu s.bars) hcount
      · show ((s.bars.map fun b => if b.id = i then mergeBar b ch else b).map
            (fun b => b.id)).Nodup
        rw [map_ids_of_preserve _ hfi]
        exact hnodup
  | SPLIT_BAR barId sp =>
      have hfu : ∀ b : FractionBarState,
          ((if b.id = barId then { b with splits := sp } else b)).isUnitBar = true →
            b.isUnitBar = true := by
        intro b
        by_cases hb : b.id = barId
        · rw [if_pos hb]; exact id
        · rw [if_neg hb]; exact id
      have hfi : ∀ b : FractionBarState,
          ((if b.id = barId then { b with splits := sp } else b)).id = b.id := by
        intro b
        by_cases hb : b.id = barId
        · rw [if_pos hb]
        · rw [if_neg hb]
      constructor
      · exact le_trans (countP_unit_map_le _ hfu s.bars) hcount
      · show (((s.bars.map fun b =>
            if b.id = barId then { b with splits := sp } else b)).map
              (fun b => b.id)).Nodup
        rw [map_ids_of_preserve _ hfi]
        exact hnodup
  | JOIN_BARS src rb =>
      simp only [tameKind, Bool.and_eq_true, Bool.not_eq_true'] at ht
      obtain ⟨h1, h2⟩ := ht
      constructor
      · show ((s.bars.filter (fun b => !(src.contains b.id)) ++ [rb]).countP
            (fun b => b.isUnitBar)) ≤ 1
        rw [List.countP_append, List.countP_singleton, h1]
        simpa using le_trans ((List.filter_sublist _).countP_le _) hcount
      · show (((s.bars.filter (fun b => !(src.contains b.id))) ++ [rb]).map
            (fun b => b.id)).Nodup
        rw [List.map_append, List.nodup_append]
        refine ⟨((List.filter_sublist _).map _).nodup hnodup, by simp, ?_⟩
        intro x hx
        simp only [List.map_cons, List.map_nil, List.mem_singleton]
        intro hxe
        rw [hxe] at hx
        rw [show (((s.bars.filter (fun b => !(src.contains b.id))).map
              (fun b => b.id)).contains rb.id) = true by simpa using hx] at h2
        simp at h2
  | SET_UNIT_BAR i =>
      have hfi : ∀ b : FractionBarState,
          (({ b with isUnitBar := (b.id = i : Bool) } : FractionBarState)).id = b.id :=
        fun b => rfl
      constructor
      · show ((s.bars.map fun b =>
            ({ b with isUnitBar := (b.id = i : Bool) } : FractionBarState)).countP
              (fun b => b.isUnitBar)) ≤ 1
        rw [List.countP_map]
        have : ((fun b : FractionBarState => b.isUnitBar) ∘
            fun b : FractionBarState =>
              ({ b with isUnitBar := (b.id = i : Bool) } : FractionBarState))
            = fun b : FractionBarState => (b.id = i : Bool) := rfl
        rw [this]
        exact countP_id_le_one i s.bars hnodup
      · show ((s.bars.map fun b =>
            ({ b with isUnitBar := (b.id = i : Bool) } : FractionBarState)).map
              (fun b => b.id)).Nodup
        rw [map_ids_of_preserve _ hfi]
        exact hnodup
  | CHANGE_TOOL t => exact ⟨hcount, hnodup⟩
  | UPDATE_SETTINGS p => exact ⟨hcount, hnodup⟩

theorem dispatchList_preserves_inv :
    ∀ (acts : List (ActionKind × Int)) (m : Manager),
      m.batchOperation = false → StateInv m.state → tameTrace m acts = true →
        StateInv (dispatchList m acts).state := by
  intro acts
  induction acts with
  | nil => intro m _ hinv _; exact hinv
  | cons kt rest ih =>
      intro m hflag hinv ht
      simp only [tameTrace, Bool.and_eq_true] at ht
      obtain ⟨ht1, ht2⟩ := ht
      have hd : dispatchM m kt.1 kt.2 = executeAction m (Action.mk kt.1 kt.2) := by
        simp [dispatchM, hflag]
      have hstep : StateInv (dispatchM m kt.1 kt.2).state := by
        rw [hd, executeAction_state]
        exact reducer_preserves_inv m.state m.state kt.1 (m.ids m.idIdx) hinv ht1
      have hflag' : (dispatchM m kt.1 kt.2).batchOperation = false := by
        rw [hd, executeAction_batchOperation]
        exact hflag
      show StateInv (dispatchList (dispatchM m kt.1 kt.2) rest).state
      exact ih (dispatchM m kt.1 kt.2) hflag' hstep ht2

/-- C4 counterexample: the reducer does not guard `isUnitBar`; dispatching
two ADD_BAR actions whose payloads carry `isUnitBar: true` reaches a state
with two unit bars from the initial state. -/
theorem C4_counterexample_two_unit_bars :
    1 < unitCount (dispatchList (mkManager none ids0)
        [(.ADD_BAR { id := some "a", isUnitBar := some true }, 0),
         (.ADD_BAR { id := some "b", isUnitBar := some true }, 1)]).state := by
  decide

/-- C4 (amended): in every state reachable from the initial state by a
sequence of dispatched actions whose payloads never set `isUnitBar = true`
(ADD_BAR payload, MODIFY_BAR changes, JOIN_BARS result bar), never rewrite
a bar id, and keep ids fresh, at most one bar has `isUnitBar = true`;
moreover, immediately after SET_UNIT_BAR(X) then SET_UNIT_BAR(Y), a bar is
flagged as the unit bar exactly when its id is Y. -/
theorem C4_unit_bar_exclusivity :
    (∀ (ids : Nat → String) (acts : List (ActionKind × Int)),
        tameTrace (mkManager none ids) acts = true →
          unitCount (dispatchList (mkManager none ids) acts).state ≤ 1) ∧
    (∀ (self s : AppState) (x y g g' : String),
        ∀ b ∈ (reducer self (reducer self s (.SET_UNIT_BAR x) g)
            (.SET_UNIT_BAR y) g').bars,
          (b.isUnitBar = true ↔ b.id = y)) := by
  constructor
  · intro ids acts ht
    have hinv : StateInv (mkManager none ids).state := by
      constructor
      · show unitCount defaultAppState ≤ 1
        decide
      · show (barIds defaultAppState).Nodup
        decide
    exact (dispatchList_preserves_inv acts (mkManager none ids) rfl hinv ht).1
  · intro self s x y g g' b hb
    simp only [reducer, List.map_map, List.mem_map] at hb
    obtain ⟨c, _, rfl⟩ := hb
    simp

/-- C4 witness: a tame two-action trace (add a bar "a", make it the unit
bar) keeps at most one unit bar, and the bar surviving SET_UNIT_BAR("b")
then SET_UNIT_BAR("a") is flagged exactly because its id is "a". -/
theorem C4_witness :
    unitCount (dispatchList (mkManager none ids0)
        [(.ADD_BAR { id := some "a" }, 0), (.SET_UNIT_BAR "a", 1)]).state ≤ 1 ∧
    (({ sampleBar with isUnitBar := true } : FractionBarState).isUnitBar = true
      ↔ ({ sampleBar with isUnitBar := true } : FractionBarState).id = "a") :=
  ⟨C4_unit_bar_exclusivity.1 ids0
      [(.ADD_BAR { id := some "a" }, 0), (.SET_UNIT_BAR "a", 1)] (by decide),
   C4_unit_bar_exclusivity.2 defaultAppState
      { defaultAppState with bars := [sampleBar] } "b" "a" "g1" "g2"
      { sampleBar with isUnitBar := true } (by decide)⟩

/-! ### C9: undo replays from the built-in defaults -/

/-- C9: `undo()` rebuilds the state by replaying the remaining history
from `createInitialState()` — the built-in default initial state (empty
bars, tool "bar", empty selection, default settings) — regardless of any
initial state handed to the constructor; in particular one dispatch
followed by `undo()` on a manager built over any constructor patch yields
the default initial state, and a patched manager really does start
elsewhere. -/
theorem C9_undo_replays_from_default :
    (∀ m : Manager, m.history ≠ [] →
        (undoM m).state
          = (replayAll m.state m.ids (defaultAppState, m.idIdx)
              m.history.dropLast).1) ∧
    (∀ (ids : Nat → String) (p : AppStatePatch) (k : ActionKind) (t : Int),
        (undoM (dispatchM (mkManager (some p) ids) k t)).state
          = defaultAppState) ∧
    (mkManager (some { currentTool := some "split" }) ids0).state
      ≠ defaultAppState := by
  refine ⟨?_, ?_, by decide⟩
  · intro m hm
    obtain ⟨a, ha⟩ : ∃ a, m.history.getLast? = some a := by
      cases hl : m.history.getLast? with
      | none => exact absurd (List.getLast?_eq_none_iff.mp hl) hm
      | some a => exact ⟨a, rfl⟩
    simp [undoM, ha, updateState, createInitialState]
  · intro ids p k t
    have hd : dispatchM (mkManager (some p) ids) k t
        = executeAction (mkManager (some p) ids) (Action.mk k t) := by
      simp [dispatchM, mkManager]
    rw [hd]
    have hh : (executeAction (mkManager (some p) ids) (Action.mk k t)).history
        = [Action.mk k t] := by
      rw [executeAction_history]
      rfl
    have hl : (executeAction (mkManager (some p) ids) (Action.mk k t)).history.getLast?
        = some (Action.mk k t) := by
      rw [hh]
      rfl
    simp only [undoM, hl, hh]
    simp [updateState, replayAll, createInitialState]

/-- A manager constructed with a non-default initial state, after one
dispatch. -/
def mC9 : Manager :=
  dispatchM (mkManager (some { currentTool := some "split" }) ids0)
    (.CHANGE_TOOL "join") 0

/-- C9 witness: the replay equation applied to the concrete patched
manager `mC9`, whose history is non-empty. -/
theorem C9_witness :
    (undoM mC9).state
      = (replayAll mC9.state mC9.ids (defaultAppState, mC9.idIdx)
          mC9.history.dropLast).1 :=
  C9_undo_replays_from_default.1 mC9 (by decide)

end FractionBars
